import Mathlib

/-!
Verification of the problem-matcher engine (mod.ts).

The engine receives a matcher configuration and an input string and returns
an ordered list of field records. The shallow embedding below translates
mod.ts function by function. The host regex engine (JS `new RegExp` and
`String.prototype.match`) is external to the repository, so the whole
development is parameterised over an oracle `RegexEngine` mapping a regex
source string and a line to the optional match array.
-/

deriving instance DecidableEq for Except

namespace ProblemMatcher

/-- A JS regex match array: index 0 is the full match, index `g ≥ 1` is
capture group `g`; `none` models a group that did not participate in the
match (JS `undefined`). -/
abbrev JsMatch := List (Option String)

/-- The host regex engine: from regex source and line to the result of
`line.match(re)`, with `none` modelling a null (no-match) result. -/
abbrev RegexEngine := String → String → Option JsMatch

/-- JS `String.prototype.trim`: strip whitespace from both ends. Modelled
on the character list so that it evaluates inside the kernel. -/
def jsTrim (s : String) : String :=
  ((s.toList.dropWhile Char.isWhitespace).reverse.dropWhile Char.isWhitespace).reverse.asString

/-- Indexing `s[g]` on a JS match array: out of bounds reads as undefined. -/
def matchIndex (s : JsMatch) (g : Nat) : Option String := (s.get? g).join

/-- JS falsiness of a possibly-undefined string value, as in the test
`!s[pattern[k]]`: undefined and the empty string are falsy. -/
def falsyStr : Option String → Bool
  | none => true
  | some s => s == ""

/-- One pattern of a matcher (mod.ts `Pattern`): the regex source, the
`loop` flag (an absent flag is `false`), and every other key of the object,
each mapping a field name to a capture-group index, in object-key order. -/
structure Pattern where
  regexp : String
  loop : Bool
  fields : List (String × Nat)
deriving DecidableEq

/-- mod.ts `Matcher`: owner, optional default severity, pattern list. -/
structure Matcher where
  owner : String
  severity : Option String
  pattern : List Pattern
deriving DecidableEq

/-- A JS object holding string fields; a value `none` models a key that is
present but holds `undefined` (as happens when `matches.severity` is
assigned an undefined `matcher.severity`). -/
abbrev Obj := List (String × Option String)

/-- JS property lookup: `none` when the key is absent, `some v` when the
key is present holding `v` (which may itself be the undefined value). -/
def objGet : Obj → String → Option (Option String)
  | [], _ => none
  | (k', v) :: r, k => if k' = k then some v else objGet r k

/-- JS property assignment `o[k] = v`: overwrite in place when the key is
present, append otherwise. -/
def objSet : Obj → String → Option String → Obj
  | [], k, v => [(k, v)]
  | (k', v') :: r, k, v => if k' = k then (k', v) :: r else (k', v') :: objSet r k v

/-- JS object spread of `a` then `b`: entries of `b` written over `a`. -/
def objMerge (a b : Obj) : Obj := b.foldl (fun acc kv => objSet acc kv.1 kv.2) a

/-- Spread with a possibly-null right operand, as in `loopMatch` where the
context is merged with a projection result that may be null. -/
def objMergeOpt (a : Obj) : Option Obj → Obj
  | none => a
  | some b => objMerge a b

/-- JS property read `o.k`: absent and present-but-undefined both read as
undefined. -/
def objRead (o : Obj) (k : String) : Option String := (objGet o k).join

/-- The keys of an object, in order. -/
def objKeys (o : Obj) : List String := o.map Prod.fst

/-- JS falsiness of a property read, as in `if (!matches.severity)`:
absent, undefined and the empty string are all falsy. -/
def falsyProp : Option (Option String) → Bool
  | none => true
  | some none => true
  | some (some s) => s == ""

def group0Msg : String :=
  "Group 0 is not a valid capture group (it contains the entire matched string)"

def invalidGroupMsg (g : Nat) (k : String) : String :=
  s!"Invalid capture group provided. Group {g} ({k}) does not exist in regexp"

def unsupportedMsg : String :=
  "Unsupported pattern configuration. We currently support single pattern and multi-line loop pattern configurations"

def patternArrayMsg : String :=
  "matcher.pattern must be an array with at least one value"

/-- The TypeError JS raises when the current line variable is undefined;
models paths that are unreachable under the dispatcher contract. -/
def typeErrorLineMsg : String := "TypeError: line is undefined"

/-- The TypeError JS raises when an indexed pattern is undefined; models
paths that are unreachable under the validator contract. -/
def typeErrorPatternMsg : String := "TypeError: pattern is undefined"

/-- The field loop of mod.ts `runRegExp` (lines 114 to 132): iterate the
field-to-group entries in key order; group index 0 is rejected, a falsy
capture (undefined, out of range, or empty) is rejected, and otherwise the
trimmed capture text is stored under the field name. -/
def projectFields (s : JsMatch) : List (String × Nat) → Obj → Except String Obj
  | [], acc => .ok acc
  | (k, g) :: fs, acc =>
    if g == 0 then .error group0Msg
    else if falsyStr (matchIndex s g) then .error (invalidGroupMsg g k)
    else projectFields s fs (objSet acc k (some (jsTrim ((matchIndex s g).getD ""))))

/-- mod.ts `runRegExp`: evaluate the regex against the line; return null
(`none`) when the line does not match; otherwise project the fields and
apply the default-severity fallback `matches.severity = matcher.severity`
when the produced severity is falsy. -/
def runRegExp (exec : RegexEngine) (reSrc : String) (line : String)
    (p : Pattern) (m : Matcher) : Except String (Option Obj) :=
  match exec reSrc line with
  | none => .ok none
  | some s =>
    match projectFields s p.fields [] with
    | .error e => .error e
    | .ok ms =>
      if falsyProp (objGet ms "severity") then
        .ok (some (objSet ms "severity" m.severity))
      else
        .ok (some ms)

/-- The JS `input.split("\n")`: split on every newline, keeping empty
segments, one segment even for the empty input. Modelled on the character
list so that it evaluates inside the kernel. -/
def splitLines (input : String) : List String :=
  (input.toList.splitOn (Char.ofNat 10)).map List.asString

/-- The inner consuming loop of mod.ts `loopMatch` (lines 58 to 73): shift
lines off the queue; a blank line is skipped silently; a non-matching line
is pushed back onto the front of the queue and ends the phase; a matching
line appends the context overlaid with the projection. Returns the records
produced and the remaining queue. -/
def loopConsume (exec : RegexEngine) (x : Pattern) (m : Matcher) (context : Obj) :
    List String → Except String (List Obj × List String)
  | [] => .ok ([], [])
  | line :: rest =>
    if line = "" then loopConsume exec x m context rest
    else
      match runRegExp exec x.regexp line x m with
      | .error e => .error e
      | .ok none => .ok ([], line :: rest)
      | .ok (some rec0) =>
        match loopConsume exec x m context rest with
        | .error e => .error e
        | .ok (recs, rem) => .ok (objMerge context rec0 :: recs, rem)

/-- The middle loop of mod.ts `loopMatch` (lines 45 to 74): run each
pattern in turn against the current line. A non-loop pattern merges its
projection into the context and leaves both the line and the queue
untouched; a loop pattern first evaluates against the current line
(discarding the result, as the source does) and then runs the consuming
loop, after which the current line variable holds the head of the
remaining queue (undefined when the queue was exhausted). -/
def patternsPhase (exec : RegexEngine) (m : Matcher) :
    List Pattern → Obj → Option String → List String →
    Except String (List Obj × List String)
  | [], _, _, lines => .ok ([], lines)
  | _ :: _, _, none, _ => .error typeErrorLineMsg
  | x :: ps, context, some line, lines =>
      match runRegExp exec x.regexp line x m with
      | .error e => .error e
      | .ok r =>
        if x.loop then
          match loopConsume exec x m context lines with
          | .error e => .error e
          | .ok (recs, rem) =>
            match patternsPhase exec m ps context rem.head? rem with
            | .error e => .error e
            | .ok (recs', rem') => .ok (recs ++ recs', rem')
        else
          patternsPhase exec m ps (objMergeOpt context r) (some line) lines

theorem loopConsume_rem_le (exec : RegexEngine) (x : Pattern) (m : Matcher)
    (context : Obj) :
    ∀ (ls : List String) (pr : List Obj × List String),
      loopConsume exec x m context ls = .ok pr → pr.2.length ≤ ls.length := by
  intro ls
  induction ls with
  | nil =>
    intro pr h
    simp only [loopConsume] at h
    injection h with h1
    subst h1
    simp
  | cons line rest ih =>
    intro pr h
    by_cases hb : line = ""
    · subst hb
      simp only [loopConsume, if_pos rfl] at h
      exact Nat.le_succ_of_le (ih pr h)
    · simp only [loopConsume, if_neg hb] at h
      cases hr : runRegExp exec x.regexp line x m with
      | error e => rw [hr] at h; exact Except.noConfusion h
      | ok r =>
        rw [hr] at h
        cases r with
        | none =>
          injection h with h1
          subst h1
          simp
        | some rec0 =>
          cases hrec : loopConsume exec x m context rest with
          | error e => rw [hrec] at h; exact Except.noConfusion h
          | ok pr1 =>
            rw [hrec] at h
            obtain ⟨recs1, rem1⟩ := pr1
            injection h with h1
            subst h1
            exact Nat.le_succ_of_le (ih (recs1, rem1) hrec)

theorem patternsPhase_rem_le (exec : RegexEngine) (m : Matcher) :
    ∀ (ps : List Pattern) (context : Obj) (line? : Option String)
      (lines : List String) (pr : List Obj × List String),
      patternsPhase exec m ps context line? lines = .ok pr →
      pr.2.length ≤ lines.length := by
  intro ps
  induction ps with
  | nil =>
    intro context line? lines pr h
    simp only [patternsPhase] at h
    injection h with h1
    subst h1
    simp
  | cons x ps ih =>
    intro context line? lines pr h
    cases line? with
    | none => simp only [patternsPhase] at h; exact Except.noConfusion h
    | some line =>
      simp only [patternsPhase] at h
      cases hr : runRegExp exec x.regexp line x m with
      | error e => simp only [hr] at h; exact Except.noConfusion h
      | ok r =>
        simp only [hr] at h
        by_cases hl : x.loop = true
        · rw [if_pos hl] at h
          cases hc : loopConsume exec x m context lines with
          | error e => simp only [hc] at h; exact Except.noConfusion h
          | ok pr1 =>
            obtain ⟨recs1, rem1⟩ := pr1
            simp only [hc] at h
            cases hp : patternsPhase exec m ps context rem1.head? rem1 with
            | error e => simp only [hp] at h; exact Except.noConfusion h
            | ok pr2 =>
              obtain ⟨recs2, rem2⟩ := pr2
              simp only [hp] at h
              injection h with h1
              subst h1
              have h2 := ih context rem1.head? rem1 (recs2, rem2) hp
              have h3 := loopConsume_rem_le exec x m context lines (recs1, rem1) hc
              exact Nat.le_trans h2 h3
        · rw [if_neg hl] at h
          exact ih (objMergeOpt context r) (some line) lines pr h

/-- The outer loop of mod.ts `loopMatch` (lines 36 to 75): while the queue
is nonempty, shift one line to seed the context and run every pattern; the
records of each outer iteration are appended in order. Well-founded on the
queue length: each iteration consumes at least the context line. -/
def loopMatchAux (exec : RegexEngine) (m : Matcher) :
    (lines : List String) → Except String (List Obj)
  | [] => .ok []
  | line :: rest =>
    match hp : patternsPhase exec m m.pattern [] (some line) rest with
    | .error e => .error e
    | .ok (recs, rem) =>
      match loopMatchAux exec m rem with
      | .error e => .error e
      | .ok more => .ok (recs ++ more)
termination_by ls => ls.length
decreasing_by
  exact Nat.lt_of_le_of_lt
    (patternsPhase_rem_le exec m m.pattern [] (some line) rest (recs, rem) hp)
    (by simp)

/-- mod.ts `loopMatch`. -/
def loopMatch (exec : RegexEngine) (m : Matcher) (input : String) :
    Except String (List Obj) :=
  loopMatchAux exec m (splitLines input)

/-- The line loop of mod.ts `singleMatch` (lines 87 to 94): run the single
pattern against each line in order, skipping lines that do not match. -/
def singleGo (exec : RegexEngine) (p : Pattern) (m : Matcher) :
    List String → Except String (List Obj)
  | [] => .ok []
  | l :: ls =>
    match runRegExp exec p.regexp l p m with
    | .error e => .error e
    | .ok none => singleGo exec p m ls
    | .ok (some rec0) =>
      match singleGo exec p m ls with
      | .error e => .error e
      | .ok rest => .ok (rec0 :: rest)

/-- mod.ts `singleMatch`: apply the first (and only) pattern to every line
of the input. -/
def singleMatch (exec : RegexEngine) (m : Matcher) (input : String) :
    Except String (List Obj) :=
  match m.pattern.head? with
  | none => .error typeErrorPatternMsg
  | some p => singleGo exec p m (splitLines input)

/-- mod.ts `validateMatcher` (lines 99 to 103): the only check performed is
that the pattern list is non-empty. -/
def validateMatcher (m : Matcher) : Except String Unit :=
  if m.pattern.length < 1 then .error patternArrayMsg else .ok ()

/-- The default export of mod.ts (lines 13 to 28): validate, then dispatch
on the pattern-list shape; a single pattern runs the single matcher, a
longer list whose last pattern has the loop flag runs the loop matcher,
and anything else is the unsupported-configuration error. -/
def matchFn (exec : RegexEngine) (m : Matcher) (input : String) :
    Except String (List Obj) :=
  match validateMatcher m with
  | .error e => .error e
  | .ok _ =>
    if m.pattern.length == 1 then
      singleMatch exec m input
    else
      match m.pattern.getLast? with
      | none => .error typeErrorPatternMsg
      | some lp =>
        if lp.loop then loopMatch exec m input else .error unsupportedMsg

/-- Whether an engine result is a success (no exception was thrown). -/
def isOkE {α : Type} : Except String α → Bool
  | .ok _ => true
  | .error _ => false

/-- Spec sections 4.3 and 8, stated in the spec's own words: the list, in
input line order, of the field projections of exactly those lines that
match the single pattern. Defined for comparison with `singleMatch`. -/
def specSingleOutput (exec : RegexEngine) (p : Pattern) (m : Matcher)
    (lines : List String) : List Obj :=
  lines.filterMap (fun l =>
    match runRegExp exec p.regexp l p m with
    | .ok (some r) => some r
    | _ => none)

/-! Concrete fixtures used by witnesses and counterexamples. -/

/-- An engine for which no line matches any regex. -/
def noMatchEngine : RegexEngine := fun _ _ => none

/-- An engine matching exactly the line "aaa": full match "aaa", one
capture group holding "vvv". -/
def engSimple : RegexEngine := fun _ l =>
  if l = "aaa" then some [some "aaa", some "vvv"] else none

/-- An engine matching exactly the line "line0", whose one capture group
captured the empty string. -/
def engEmptyCapture : RegexEngine := fun _ l =>
  if l = "line0" then some [some "line0", some ""] else none

def patG0 : Pattern := ⟨"reG0", false, [("message", 0)]⟩

def mG0 : Matcher := ⟨"own", none, [patG0]⟩

def patPlain : Pattern := ⟨"rX", false, []⟩

def mNoOwner : Matcher := ⟨"", none, [patPlain]⟩

def patLoopF : Pattern := ⟨"re3", true, [("f", 1)]⟩

def mLoopF : Matcher := ⟨"o3", none, [patLoopF]⟩

def ctxC : Obj := [("c", some "ctx")]

def patLoopEmpty : Pattern := ⟨"re4", true, []⟩

def mLoopEmpty : Matcher := ⟨"o4", none, [patLoopEmpty]⟩

def patMsg : Pattern := ⟨"re5", false, [("msg", 1)]⟩

def mMsg : Matcher := ⟨"o5", none, [patMsg]⟩

def patF : Pattern := ⟨"re7", false, [("f", 1)]⟩

def mSev : Matcher := ⟨"o7", some "Error", [patF]⟩

def mPlainF : Matcher := ⟨"o8", none, [patF]⟩

def mTwoNoLoop : Matcher := ⟨"o9", none, [⟨"r1", false, []⟩, ⟨"r2", false, []⟩]⟩

def patCode : Pattern := ⟨"re10", false, [("code", 1)]⟩

def mCode : Matcher := ⟨"o10", none, [patCode]⟩

/-! Lemmas about the JS object operations. -/

theorem objKeys_cons (k : String) (v : Option String) (r : Obj) :
    objKeys ((k, v) :: r) = k :: objKeys r := rfl

theorem objGet_objSet_self (o : Obj) (k : String) (v : Option String) :
    objGet (objSet o k v) k = some v := by
  induction o with
  | nil => simp [objGet, objSet]
  | cons hd tl ih =>
    obtain ⟨k0, v0⟩ := hd
    by_cases hk : k0 = k
    · subst hk
      simp [objSet, objGet]
    · simp [objSet, objGet, hk, ih]

theorem objGet_objSet_ne (o : Obj) (k k' : String) (v : Option String)
    (hne : k' ≠ k) : objGet (objSet o k v) k' = objGet o k' := by
  have hne' : k ≠ k' := fun h => hne h.symm
  induction o with
  | nil => simp [objGet, objSet, hne']
  | cons hd tl ih =>
    obtain ⟨k0, v0⟩ := hd
    by_cases hk : k0 = k
    · subst hk
      simp [objSet, objGet, hne']
    · simp [objSet, objGet, hk, ih]

theorem mem_objKeys_objSet (o : Obj) (k k' : String) (v : Option String)
    (h : k' ∈ objKeys (objSet o k v)) : k' = k ∨ k' ∈ objKeys o := by
  induction o with
  | nil =>
    simp [objSet, objKeys] at h
    exact Or.inl h
  | cons hd tl ih =>
    obtain ⟨k0, v0⟩ := hd
    by_cases hk : k0 = k
    · subst hk
      have e : objSet ((k0, v0) :: tl) k0 v = (k0, v) :: tl := by simp [objSet]
      rw [e, objKeys_cons] at h
      rw [objKeys_cons]
      exact Or.inr h
    · have e : objSet ((k0, v0) :: tl) k v = (k0, v0) :: objSet tl k v := by
        simp [objSet, hk]
      rw [e, objKeys_cons, List.mem_cons] at h
      rw [objKeys_cons, List.mem_cons]
      rcases h with h | h
      · exact Or.inr (Or.inl h)
      · rcases ih h with h1 | h1
        · exact Or.inl h1
        · exact Or.inr (Or.inr h1)

theorem objKeys_objSet_nodup (o : Obj) (k : String) (v : Option String)
    (h : (objKeys o).Nodup) : (objKeys (objSet o k v)).Nodup := by
  induction o with
  | nil => simp [objSet, objKeys]
  | cons hd tl ih =>
    obtain ⟨k0, v0⟩ := hd
    rw [objKeys_cons, List.nodup_cons] at h
    obtain ⟨hnotin, hnd⟩ := h
    by_cases hk : k0 = k
    · subst hk
      have e : objSet ((k0, v0) :: tl) k0 v = (k0, v) :: tl := by simp [objSet]
      rw [e, objKeys_cons, List.nodup_cons]
      exact ⟨hnotin, hnd⟩
    · have e : objSet ((k0, v0) :: tl) k v = (k0, v0) :: objSet tl k v := by
        simp [objSet, hk]
      rw [e, objKeys_cons, List.nodup_cons]
      refine ⟨?_, ih hnd⟩
      intro hmem
      rcases mem_objKeys_objSet tl k k0 v hmem with h1 | h1
      · exact hk h1
      · exact hnotin h1

theorem objGet_eq_none_of_not_mem (o : Obj) (k : String)
    (h : k ∉ objKeys o) : objGet o k = none := by
  induction o with
  | nil => rfl
  | cons hd tl ih =>
    obtain ⟨k0, v0⟩ := hd
    rw [objKeys_cons, List.mem_cons, not_or] at h
    obtain ⟨h1, h2⟩ := h
    simp only [objGet]
    rw [if_neg (fun e => h1 e.symm)]
    exact ih h2

theorem objMerge_nil (a : Obj) : objMerge a [] = a := rfl

theorem objMerge_cons (a : Obj) (k : String) (v : Option String) (b : Obj) :
    objMerge a ((k, v) :: b) = objMerge (objSet a k v) b := rfl

theorem objGet_objMerge_of_none (b : Obj) :
    ∀ (a : Obj) (k : String), objGet b k = none →
      objGet (objMerge a b) k = objGet a k := by
  induction b with
  | nil => intro a k _; rfl
  | cons hd b ih =>
    obtain ⟨k0, v0⟩ := hd
    intro a k h
    simp only [objGet] at h
    by_cases hk : k0 = k
    · rw [if_pos hk] at h
      exact Option.noConfusion h
    · rw [if_neg hk] at h
      rw [objMerge_cons, ih (objSet a k0 v0) k h]
      exact objGet_objSet_ne a k0 k v0 (fun e => hk e.symm)

theorem objGet_objMerge_of_some (b : Obj) :
    ∀ (a : Obj) (k : String) (v : Option String),
      (objKeys b).Nodup → objGet b k = some v →
      objGet (objMerge a b) k = some v := by
  induction b with
  | nil => intro a k v _ h; exact Option.noConfusion h
  | cons hd b ih =>
    obtain ⟨k0, v0⟩ := hd
    intro a k v hnd h
    rw [objKeys_cons, List.nodup_cons] at hnd
    obtain ⟨hnotin, hnd⟩ := hnd
    simp only [objGet] at h
    by_cases hk : k0 = k
    · subst hk
      rw [if_pos rfl] at h
      rw [objMerge_cons,
        objGet_objMerge_of_none b (objSet a k0 v0) k0
          (objGet_eq_none_of_not_mem b k0 hnotin),
        objGet_objSet_self]
      exact h
    · rw [if_neg hk] at h
      rw [objMerge_cons]
      exact ih (objSet a k0 v0) k v hnd h

/-! Lemmas about field projection. -/

theorem projectFields_objGet_not_mem (s : JsMatch) :
    ∀ (fs : List (String × Nat)) (acc out : Obj) (k : String),
      k ∉ fs.map Prod.fst → projectFields s fs acc = .ok out →
      objGet out k = objGet acc k := by
  intro fs
  induction fs with
  | nil =>
    intro acc out k _ h
    simp only [projectFields] at h
    injection h with h1
    subst h1
    rfl
  | cons hd fs ih =>
    obtain ⟨k0, g0⟩ := hd
    intro acc out k hk h
    rw [List.map_cons, List.mem_cons, not_or] at hk
    obtain ⟨hk1, hk2⟩ := hk
    simp only [projectFields] at h
    by_cases hg : (g0 == 0) = true
    · rw [if_pos hg] at h; exact Except.noConfusion h
    · rw [if_neg hg] at h
      by_cases hfa : falsyStr (matchIndex s g0) = true
      · rw [if_pos hfa] at h; exact Except.noConfusion h
      · rw [if_neg hfa] at h
        rw [ih _ out k hk2 h]
        exact objGet_objSet_ne acc k0 k _ hk1

theorem projectFields_nodup (s : JsMatch) :
    ∀ (fs : List (String × Nat)) (acc out : Obj),
      (objKeys acc).Nodup → projectFields s fs acc = .ok out →
      (objKeys out).Nodup := by
  intro fs
  induction fs with
  | nil =>
    intro acc out hnd h
    simp only [projectFields] at h
    injection h with h1
    subst h1
    exact hnd
  | cons hd fs ih =>
    obtain ⟨k0, g0⟩ := hd
    intro acc out hnd h
    simp only [projectFields] at h
    by_cases hg : (g0 == 0) = true
    · rw [if_pos hg] at h; exact Except.noConfusion h
    · rw [if_neg hg] at h
      by_cases hfa : falsyStr (matchIndex s g0) = true
      · rw [if_pos hfa] at h; exact Except.noConfusion h
      · rw [if_neg hfa] at h
        exact ih _ out (objKeys_objSet_nodup acc k0 _ hnd) h

theorem projectFields_append (s : JsMatch) :
    ∀ (pre rest : List (String × Nat)) (acc : Obj),
      (∀ q ∈ pre, q.2 ≠ 0 ∧ falsyStr (matchIndex s q.2) = false) →
      ∃ acc', projectFields s (pre ++ rest) acc = projectFields s rest acc' := by
  intro pre
  induction pre with
  | nil => intro rest acc _; exact ⟨acc, rfl⟩
  | cons hd pre ih =>
    obtain ⟨k0, g0⟩ := hd
    intro rest acc hok
    obtain ⟨hg, hfa⟩ := hok (k0, g0) (List.mem_cons_self _ _)
    simp only [List.cons_append, projectFields]
    rw [if_neg (by simpa using hg), if_neg (by simp [hfa])]
    exact ih rest _ (fun q hq => hok q (List.mem_cons_of_mem _ hq))

theorem runRegExp_ok_some_nodup (exec : RegexEngine) (reSrc line : String)
    (p : Pattern) (m : Matcher) (r : Obj)
    (h : runRegExp exec reSrc line p m = .ok (some r)) :
    (objKeys r).Nodup := by
  simp only [runRegExp] at h
  cases he : exec reSrc line with
  | none =>
    simp only [he] at h
    injection h with h1
    exact Option.noConfusion h1
  | some s =>
    simp only [he] at h
    cases hpf : projectFields s p.fields [] with
    | error e => simp only [hpf] at h; exact Except.noConfusion h
    | ok ms =>
      simp only [hpf] at h
      have hnd : (objKeys ms).Nodup :=
        projectFields_nodup s p.fields [] ms (by simp [objKeys]) hpf
      by_cases hfa : falsyProp (objGet ms "severity") = true
      · rw [if_pos hfa] at h
        injection h with h1
        injection h1 with h2
        subst h2
        exact objKeys_objSet_nodup ms "severity" m.severity hnd
      · rw [if_neg hfa] at h
        injection h with h1
        injection h1 with h2
        subst h2
        exact hnd

/-! Lemmas about the phases of the engine. -/

theorem validateMatcher_ok (m : Matcher) (h : m.pattern ≠ []) :
    validateMatcher m = .ok () := by
  simp only [validateMatcher]
  rw [if_neg]
  simp only [Nat.lt_one_iff, List.length_eq_zero]
  exact h

theorem patternsPhase_all_nonloop (exec : RegexEngine) (m : Matcher) :
    ∀ (qs : List Pattern) (context : Obj) (line : String) (lines : List String)
      (recs : List Obj) (rem : List String),
      (∀ q ∈ qs, q.loop = false) →
      patternsPhase exec m qs context (some line) lines = .ok (recs, rem) →
      rem = lines ∧ recs = [] := by
  intro qs
  induction qs with
  | nil =>
    intro c line lines recs rem _ h
    simp only [patternsPhase] at h
    injection h with h1
    exact ⟨(congrArg Prod.snd h1).symm, (congrArg Prod.fst h1).symm⟩
  | cons x qs ih =>
    intro c line lines recs rem hall h
    simp only [patternsPhase] at h
    cases hr : runRegExp exec x.regexp line x m with
    | error e => simp only [hr] at h; exact Except.noConfusion h
    | ok r =>
      simp only [hr] at h
      have hx := hall x (List.mem_cons_self _ _)
      rw [if_neg (by simp [hx])] at h
      exact ih (objMergeOpt c r) line lines recs rem
        (fun q hq => hall q (List.mem_cons_of_mem _ hq)) h

theorem loopMatchAux_cons (exec : RegexEngine) (m : Matcher) (line : String)
    (rest : List String) (recs : List Obj) (rem : List String)
    (h : patternsPhase exec m m.pattern [] (some line) rest = .ok (recs, rem)) :
    loopMatchAux exec m (line :: rest) =
      Except.map (fun more => recs ++ more) (loopMatchAux exec m rem) := by
  rw [loopMatchAux]
  split
  · next e heq => rw [h] at heq; exact Except.noConfusion heq
  · next recs' rem' heq =>
    rw [h] at heq
    injection heq with h1
    injection h1 with h2 h3
    subst h2
    subst h3
    cases loopMatchAux exec m rem with
    | error e => rfl
    | ok more => rfl

theorem singleGo_eq_spec (exec : RegexEngine) (p : Pattern) (m : Matcher) :
    ∀ (ls : List String),
      (∀ l ∈ ls, isOkE (runRegExp exec p.regexp l p m) = true) →
      singleGo exec p m ls = .ok (specSingleOutput exec p m ls) := by
  intro ls
  induction ls with
  | nil => intro _; rfl
  | cons l ls ih =>
    intro hok
    have hl := hok l (List.mem_cons_self _ _)
    have ihh := ih (fun l' hl' => hok l' (List.mem_cons_of_mem _ hl'))
    cases hr : runRegExp exec p.regexp l p m with
    | error e => rw [hr] at hl; simp [isOkE] at hl
    | ok r =>
      cases r with
      | none =>
        simp only [singleGo, hr]
        rw [ihh]
        simp only [specSingleOutput, List.filterMap_cons, hr]
      | some rec0 =>
        simp only [singleGo, hr]
        rw [ihh]
        simp only [specSingleOutput, List.filterMap_cons, hr]

/-! The claims. -/

/-- C1 counterexample: the claim says a field mapped to capture-group index
0 raises the Group 0 error regardless of whether the regex matches the
line. On a line the regex does not match, `runRegExp` returns the no-match
result and raises nothing, so the claim as stated is false. -/
theorem group0_nomatch_counterexample :
    runRegExp noMatchEngine patG0.regexp "anything" patG0 mG0 = .ok none ∧
    runRegExp noMatchEngine patG0.regexp "anything" patG0 mG0 ≠ .error group0Msg := by
  decide

/-- C1 (corrected): a field mapped to capture-group index 0 raises "Group 0
is not a valid capture group (it contains the entire matched string)"
whenever the regex does match the line (and the fields listed before it
project without error); when the regex does not match, the projector
returns the no-match result instead of raising. -/
theorem group0_error_on_match (exec : RegexEngine) (m : Matcher) (p : Pattern)
    (line : String) (s : JsMatch) (pre post : List (String × Nat)) (k : String)
    (hf : p.fields = pre ++ (k, 0) :: post)
    (hs : exec p.regexp line = some s)
    (hpre : ∀ q ∈ pre, q.2 ≠ 0 ∧ falsyStr (matchIndex s q.2) = false) :
    runRegExp exec p.regexp line p m = .error group0Msg := by
  simp only [runRegExp, hs]
  obtain ⟨acc', ha⟩ := projectFields_append s pre ((k, 0) :: post) [] hpre
  rw [hf, ha]
  simp [projectFields]

/-- C1 witness: the corrected claim at a concrete matching engine. -/
theorem group0_error_on_match_witness :
    runRegExp engSimple patG0.regexp "aaa" patG0 mG0 = .error group0Msg :=
  group0_error_on_match engSimple mG0 patG0 "aaa" [some "aaa", some "vvv"]
    [] [] "message" rfl (by decide) (by simp)

/-- C2 counterexample: the claim says a matcher whose owner is absent or
empty fails with "No matcher.owner provided" before any regex evaluation.
The engine has no such check: with an empty owner and a well-formed
pattern list it runs to completion and returns a result. -/
theorem empty_owner_accepted_counterexample :
    matchFn noMatchEngine mNoOwner "x" = .ok [] ∧
    matchFn noMatchEngine mNoOwner "x" ≠ .error "No matcher.owner provided" := by
  decide

/-- C2 (corrected): validation ignores the owner entirely; every matcher
with a non-empty pattern list passes `validateMatcher`, empty owner
included, and no "No matcher.owner provided" error exists in the engine. -/
theorem validateMatcher_ignores_owner (m : Matcher) (h : m.pattern ≠ []) :
    validateMatcher m = .ok () :=
  validateMatcher_ok m h

/-- C2 witness: a matcher with an empty owner passes validation. -/
theorem validateMatcher_ignores_owner_witness :
    validateMatcher mNoOwner = .ok () :=
  validateMatcher_ignores_owner mNoOwner (by decide)

/-- C3 (confirmed): in loop mode, a successful match of the loop pattern on
a line appends exactly one record, the context fields overlaid with the
loop projection; the loop projection wins on overlapping keys, and the
records keep the order of the matching lines. -/
theorem loopConsume_match_appends_merged (exec : RegexEngine) (x : Pattern)
    (m : Matcher) (context : Obj) (line : String) (rest : List String) (r : Obj)
    (recs : List Obj) (rem : List String)
    (hb : line ≠ "")
    (hr : runRegExp exec x.regexp line x m = .ok (some r))
    (hrec : loopConsume exec x m context rest = .ok (recs, rem)) :
    loopConsume exec x m context (line :: rest)
      = .ok (objMerge context r :: recs, rem)
    ∧ ∀ k v, objGet r k = some v → objGet (objMerge context r) k = some v := by
  constructor
  · simp only [loopConsume, if_neg hb, hr, hrec]
  · intro k v hv
    exact objGet_objMerge_of_some r context k v
      (runRegExp_ok_some_nodup exec x.regexp line x m r hr) hv

/-- C3 witness: one matching loop line appends one merged record. -/
theorem loopConsume_match_appends_merged_witness :
    loopConsume engSimple patLoopF mLoopF ctxC ["aaa"]
      = .ok ([objMerge ctxC [("f", some "vvv"), ("severity", none)]], []) :=
  (loopConsume_match_appends_merged engSimple patLoopF mLoopF ctxC "aaa" []
    [("f", some "vvv"), ("severity", none)] [] [] (by decide) (by decide) rfl).1

/-- C4 (confirmed): the loop phase silently consumes blank lines without
producing a record; a non-blank line the loop regex does not match is
pushed back onto the front of the queue and ends the phase; and the queue
the pattern phase leaves seeds the next outer iteration, so the restored
line is never dropped. -/
theorem loopConsume_blank_and_pushback (exec : RegexEngine) (x : Pattern)
    (m : Matcher) (context : Obj) :
    (∀ rest, loopConsume exec x m context ("" :: rest)
        = loopConsume exec x m context rest)
    ∧ (∀ line rest, line ≠ "" → runRegExp exec x.regexp line x m = .ok none →
        loopConsume exec x m context (line :: rest) = .ok ([], line :: rest))
    ∧ (∀ line rest recs rem,
        patternsPhase exec m m.pattern [] (some line) rest = .ok (recs, rem) →
        loopMatchAux exec m (line :: rest) =
          Except.map (fun more => recs ++ more) (loopMatchAux exec m rem)) := by
  refine ⟨?_, ?_, ?_⟩
  · intro rest
    rfl
  · intro line rest hb hr
    simp only [loopConsume, if_neg hb, hr]
  · intro line rest recs rem h
    exact loopMatchAux_cons exec m line rest recs rem h

/-- C4 witness: a blank line is skipped, a non-matching line is restored,
and the remaining queue seeds the next outer iteration. -/
theorem loopConsume_blank_and_pushback_witness :
    (loopConsume noMatchEngine patLoopEmpty mLoopEmpty [] ["", "z"]
        = loopConsume noMatchEngine patLoopEmpty mLoopEmpty [] ["z"])
    ∧ loopConsume noMatchEngine patLoopEmpty mLoopEmpty [] ["z"] = .ok ([], ["z"])
    ∧ loopMatchAux noMatchEngine mLoopEmpty ["z"]
        = Except.map (fun more => [] ++ more) (loopMatchAux noMatchEngine mLoopEmpty []) := by
  obtain ⟨h1, h2, h3⟩ :=
    loopConsume_blank_and_pushback noMatchEngine patLoopEmpty mLoopEmpty []
  exact ⟨h1 ["z"], h2 "z" [] (by decide) (by decide), h3 "z" [] [] [] (by decide)⟩

/-- C5 (confirmed): with exactly one pattern the output is the list, in
input line order, of the projections of exactly the matching lines;
non-matching lines contribute nothing and raise nothing, and when no line
matches the result is the empty list, not an error. -/
theorem singleMode_output_matching_projections (exec : RegexEngine)
    (p : Pattern) (m : Matcher) (input : String)
    (hp : m.pattern = [p])
    (hok : ∀ l ∈ splitLines input, isOkE (runRegExp exec p.regexp l p m) = true) :
    matchFn exec m input = .ok (specSingleOutput exec p m (splitLines input))
    ∧ ((∀ l ∈ splitLines input, runRegExp exec p.regexp l p m = .ok none) →
        matchFn exec m input = .ok []) := by
  have hne : m.pattern ≠ [] := by rw [hp]; simp
  have hmain : matchFn exec m input
      = .ok (specSingleOutput exec p m (splitLines input)) := by
    simp only [matchFn, validateMatcher_ok m hne]
    rw [if_pos (show (m.pattern.length == 1) = true by rw [hp]; rfl)]
    simp only [singleMatch, hp, List.head?_cons]
    exact singleGo_eq_spec exec p m (splitLines input) hok
  refine ⟨hmain, fun hall => ?_⟩
  rw [hmain]
  have hnil : specSingleOutput exec p m (splitLines input) = [] := by
    simp only [specSingleOutput, List.filterMap_eq_nil_iff]
    intro l hl
    rw [hall l hl]
  rw [hnil]

/-- C5 witness: a two-line input with one matching line yields exactly its
projection. -/
theorem singleMode_output_matching_projections_witness :
    matchFn engSimple mMsg "aaa\nzzz"
      = .ok (specSingleOutput engSimple patMsg mMsg (splitLines "aaa\nzzz")) :=
  (singleMode_output_matching_projections engSimple patMsg mMsg "aaa\nzzz"
    rfl (by decide)).1

/-- C6 (confirmed): each outer iteration of the loop matcher consumes at
least one line: whatever the pattern phase returns, the remaining queue is
strictly shorter than the context line plus the incoming queue. This is
the measure by which `loopMatchAux`, hence `loopMatch`, is a terminating
function of every finite input. -/
theorem outer_iteration_consumes_line (exec : RegexEngine) (m : Matcher)
    (line : String) (rest : List String) (recs : List Obj) (rem : List String)
    (h : patternsPhase exec m m.pattern [] (some line) rest = .ok (recs, rem)) :
    rem.length < (line :: rest).length :=
  Nat.lt_of_le_of_lt
    (patternsPhase_rem_le exec m m.pattern [] (some line) rest (recs, rem) h)
    (by simp)

/-- C6 witness: the strict decrease at a concrete iteration. -/
theorem outer_iteration_consumes_line_witness :
    ([] : List String).length < ("z" :: ([] : List String)).length :=
  outer_iteration_consumes_line noMatchEngine mLoopEmpty "z" [] [] [] (by decide)

/-- C7 (confirmed): when the pattern does not declare a severity field, the
produced record reads severity exactly as matcher.severity, including
undefined when matcher.severity is unset. -/
theorem severity_default_when_not_captured (exec : RegexEngine)
    (reSrc line : String) (p : Pattern) (m : Matcher) (r : Obj)
    (hsev : "severity" ∉ p.fields.map Prod.fst)
    (hr : runRegExp exec reSrc line p m = .ok (some r)) :
    objRead r "severity" = m.severity := by
  simp only [runRegExp] at hr
  cases he : exec reSrc line with
  | none =>
    simp only [he] at hr
    injection hr with h1
    exact Option.noConfusion h1
  | some s =>
    simp only [he] at hr
    cases hpf : projectFields s p.fields [] with
    | error e => simp only [hpf] at hr; exact Except.noConfusion hr
    | ok ms =>
      simp only [hpf] at hr
      have hget : objGet ms "severity" = none := by
        rw [projectFields_objGet_not_mem s p.fields [] ms "severity" hsev hpf]
        rfl
      rw [hget] at hr
      rw [if_pos (show falsyProp none = true from rfl)] at hr
      injection hr with h1
      injection h1 with h2
      subst h2
      simp only [objRead, objGet_objSet_self]
      rfl

/-- C7 witness: a record with no captured severity carries the default. -/
theorem severity_default_when_not_captured_witness :
    objRead [("f", some "vvv"), ("severity", some "Error")] "severity"
      = mSev.severity :=
  severity_default_when_not_captured engSimple patF.regexp "aaa" patF mSev
    [("f", some "vvv"), ("severity", some "Error")] (by decide) (by decide)

/-- C8 (confirmed): a non-loop pattern is processed against the current
context line without advancing the line or touching the queue; a failed
non-loop match merges no fields into the context; and a run of non-loop
patterns consumes no lines at all beyond the single context line taken at
the top of the outer iteration. -/
theorem context_phase_fixed_line (exec : RegexEngine) (m : Matcher)
    (x : Pattern) (ps : List Pattern) (context : Obj) (line : String)
    (lines : List String) (r : Option Obj)
    (hx : x.loop = false)
    (hr : runRegExp exec x.regexp line x m = .ok r) :
    patternsPhase exec m (x :: ps) context (some line) lines
      = patternsPhase exec m ps (objMergeOpt context r) (some line) lines
    ∧ objMergeOpt context none = context
    ∧ (∀ (qs : List Pattern) (recs : List Obj) (rem : List String),
        (∀ q ∈ qs, q.loop = false) →
        patternsPhase exec m qs context (some line) lines = .ok (recs, rem) →
        rem = lines ∧ recs = []) := by
  refine ⟨?_, rfl, ?_⟩
  · simp only [patternsPhase, hr]
    rw [if_neg (by simp [hx])]
  · intro qs recs rem hq h
    exact patternsPhase_all_nonloop exec m qs context line lines recs rem hq h

/-- C8 witness: a concrete non-loop pattern leaves the line and queue as
they were and only extends the context. -/
theorem context_phase_fixed_line_witness :
    patternsPhase engSimple mPlainF [patF] ctxC (some "aaa") []
      = patternsPhase engSimple mPlainF []
          (objMergeOpt ctxC (some [("f", some "vvv"), ("severity", none)]))
          (some "aaa") [] :=
  (context_phase_fixed_line engSimple mPlainF patF [] ctxC "aaa" []
    (some [("f", some "vvv"), ("severity", none)]) rfl (by decide)).1

/-- C9 (confirmed): more than one pattern whose last element does not set
the loop flag always raises the unsupported-configuration error, whatever
the input. -/
theorem unsupported_configuration_always_errors (exec : RegexEngine)
    (m : Matcher) (input : String)
    (hlen : 1 < m.pattern.length)
    (hlast : ∃ lp, m.pattern.getLast? = some lp ∧ lp.loop = false) :
    matchFn exec m input = .error unsupportedMsg := by
  obtain ⟨lp, hlp, hloop⟩ := hlast
  have hne : m.pattern ≠ [] := by
    intro e
    rw [e] at hlen
    simp at hlen
  simp only [matchFn, validateMatcher_ok m hne]
  rw [if_neg (by simp only [beq_iff_eq]; omega)]
  simp only [hlp]
  rw [if_neg (by simp [hloop])]

/-- C9 witness: a two-pattern matcher with no loop flag errors on any
input. -/
theorem unsupported_configuration_always_errors_witness :
    matchFn noMatchEngine mTwoNoLoop "t" = .error unsupportedMsg :=
  unsupported_configuration_always_errors noMatchEngine mTwoNoLoop "t"
    (by decide) ⟨⟨"r2", false, []⟩, by decide, rfl⟩

/-- C10 (confirmed): when the regex matches but a configured field refers
to a group that exists and captured the empty string, the projector raises
the invalid-capture-group error naming that group and field (the fields
before it projecting cleanly) instead of producing an empty-string value:
an empty capture is indistinguishable from a nonexistent group. -/
theorem empty_capture_rejected_as_missing_group (exec : RegexEngine)
    (m : Matcher) (p : Pattern) (line : String) (s : JsMatch)
    (pre post : List (String × Nat)) (k : String) (g : Nat)
    (hf : p.fields = pre ++ (k, g) :: post)
    (hg0 : g ≠ 0)
    (hs : exec p.regexp line = some s)
    (hempty : matchIndex s g = some "")
    (hpre : ∀ q ∈ pre, q.2 ≠ 0 ∧ falsyStr (matchIndex s q.2) = false) :
    runRegExp exec p.regexp line p m = .error (invalidGroupMsg g k) := by
  simp only [runRegExp, hs]
  obtain ⟨acc', ha⟩ := projectFields_append s pre ((k, g) :: post) [] hpre
  rw [hf, ha]
  simp only [projectFields]
  rw [if_neg (by simpa using hg0), if_pos (by simp [falsyStr, hempty])]

/-- C10 witness: a group that captured the empty string raises the
invalid-capture-group error naming group 1 and the field "code". -/
theorem empty_capture_rejected_as_missing_group_witness :
    runRegExp engEmptyCapture patCode.regexp "line0" patCode mCode
      = .error (invalidGroupMsg 1 "code") :=
  empty_capture_rejected_as_missing_group engEmptyCapture mCode patCode "line0"
    [some "line0", some ""] [] [] "code" 1 rfl (by decide) (by decide)
    (by decide) (by simp)

end ProblemMatcher
